import Mathlib

/-!
Verification development for the three-dee-maze-wanderer repository.

The maze generator (src/src/utils/mazeGenerator.ts) and the game logic of the
maze component (src/unnamed/part_000, with a simpler variant in
src/src/components/MazeGame.tsx) are shallowly embedded below.

Conventions used throughout:
* A maze is the occupancy grid `number[][]` of the source, represented as a
  total function `Int → Int → Nat`; application `m z x` is the source's
  `maze[z][x]` (row index first, as in the TypeScript).  The source array is
  created as `Array(height).fill(...).map(() => Array(width).fill(1))`, i.e.
  the constant-1 function on the played region; all reads performed by the
  program are in bounds, so the function representation agrees with the
  array on every access the program makes.
* `Math.random()` outcomes are modelled by oracle parameters: `shuf : Nat → Nat`
  supplies the value of `Math.floor(Math.random() * (i + 1))` (taken mod
  `i + 1`, which covers exactly the possible outcomes) for the Fisher-Yates
  shuffle, and `coin : Nat → Bool` supplies the outcome of the comparison
  `Math.random() > 0.3` in `ensureExitPath`.  All theorems quantify over the
  oracles, hence over every outcome of the random choices.
* The depth-first carver `carvePath` is given a fuel argument (the source
  recursion has no such argument); `generate` passes `width * height` fuel
  and the development proves that this fuel is never exhausted, which is the
  termination statement of the source recursion.
* Continuous world coordinates are modelled by `ℚ`.  The magnitudes involved
  (grid coordinates up to 21, offsets 0.25 and 0.1) are far inside the range
  where IEEE doubles are exact for these computations, and comparisons such
  as `Math.sqrt(d2) < 8` on integer `d2` are replaced by the exactly
  equivalent squared comparison `d2 < 64`.
-/

namespace MazeWanderer

/-- Occupancy grid of the game: `m z x` is `maze[z][x]` of the source
(`1` = wall, `0` = open). -/
abbrev Maze : Type := Int → Int → Nat

/-- The single-cell write `maze[y][x] = v` of the source. -/
def mset (m : Maze) (y x : Int) (v : Nat) : Maze :=
  fun y' x' => if y' = y ∧ x' = x then v else m y' x'

/-- `isValidCell` of mazeGenerator.ts: strictly inside the outer border. -/
def isValidCell (w h x y : Int) : Prop :=
  0 < x ∧ x < w - 1 ∧ 0 < y ∧ y < h - 1

instance (w h x y : Int) : Decidable (isValidCell w h x y) := by
  unfold isValidCell; infer_instance

/-- The direction list `[[0,-2],[2,0],[0,2],[-2,0]]` of `carvePath`
(pairs are `(dx, dy)`). -/
def dirs0 : List (Int × Int) := [(0, -2), (2, 0), (0, 2), (-2, 0)]

/-- The simultaneous swap `[directions[i], directions[j]] = [directions[j], directions[i]]`. -/
def listSwap (l : List (Int × Int)) (i j : Nat) : List (Int × Int) :=
  (l.set i (l.getD j (0, 0))).set j (l.getD i (0, 0))

/-- The Fisher-Yates shuffle of `carvePath`: three draws
`j = Math.floor(Math.random() * (i + 1))` for `i = 3, 2, 1`, modelled by the
oracle `shuf` consumed at stream positions `k`, `k+1`, `k+2`. -/
def shuffleDirs (shuf : Nat → Nat) (k : Nat) : List (Int × Int) × Nat :=
  let l1 := listSwap dirs0 3 (shuf k % 4)
  let l2 := listSwap l1 2 (shuf (k + 1) % 3)
  let l3 := listSwap l2 1 (shuf (k + 2) % 2)
  (l3, k + 3)

/-- The `for (const [dx, dy] of directions)` loop body of `carvePath`: for each
direction, if the two-step neighbour is valid and unvisited, carve the wall
between and recurse (`step` is the recursive call at one less fuel). -/
def tryDirs (w h : Int) (step : Maze → Int → Int → Nat → Option (Maze × Nat))
    (x y : Int) : Maze → Nat → List (Int × Int) → Option (Maze × Nat)
  | m, k, [] => some (m, k)
  | m, k, d :: rest =>
    if isValidCell w h (x + d.1) (y + d.2) ∧ m (y + d.2) (x + d.1) = 1 then
      match step (mset m (y + d.2 / 2) (x + d.1 / 2) 0) (x + d.1) (y + d.2) k with
      | none => none
      | some (m3, k3) => tryDirs w h step x y m3 k3 rest
    else
      tryDirs w h step x y m k rest

/-- `carvePath` of mazeGenerator.ts: mark the current cell open, shuffle the
four directions, and try each in order.  The fuel argument is an embedding
artifact; `carvePath_isSome` below shows the `none` branch is unreachable for
the fuel `generate` supplies. -/
def carvePath (w h : Int) (shuf : Nat → Nat) :
    Nat → Maze → Int → Int → Nat → Option (Maze × Nat)
  | 0, _m, _x, _y, _k => none
  | fuel + 1, m, x, y, k =>
    let m1 := mset m y x 0
    let pr := shuffleDirs shuf k
    tryDirs w h (fun m2 nx ny k2 => carvePath w h shuf fuel m2 nx ny k2) x y m1 pr.2 pr.1

/-- The `while (currentX < exitX || currentY < exitY)` loop of
`ensureExitPath`: open the current cell, then advance the column when the
coin allows (the coin is only consulted when `currentX < exitX`, matching the
short-circuit of `currentX < exitX && Math.random() > 0.3`), else advance the
row, else advance the column. -/
def ensureExitLoop (w h : Int) (coin : Nat → Bool) (m : Maze) (x y : Int) (k : Nat) :
    Maze × Nat :=
  if hg : x < w - 2 ∨ y < h - 2 then
    let m1 := mset m y x 0
    if hx : x < w - 2 then
      if coin k then ensureExitLoop w h coin m1 (x + 1) y (k + 1)
      else if hy : y < h - 2 then ensureExitLoop w h coin m1 x (y + 1) (k + 1)
      else ensureExitLoop w h coin m1 (x + 1) y (k + 1)
    else
      ensureExitLoop w h coin m1 x (y + 1) k
  else (m, k)
termination_by ((w - 2 - x).toNat + (h - 2 - y).toNat)
decreasing_by
  all_goals omega

/-- `MazeGenerator.generate`: initialize all cells to wall, carve from (1,1),
run the exit-path pass, and finally force the exit cell `(w-2, h-2)` open. -/
def generate (w h : Int) (shuf : Nat → Nat) (coin : Nat → Bool) : Option Maze :=
  match carvePath w h shuf (w.toNat * h.toNat) (fun _ _ => 1) 1 1 0 with
  | none => none
  | some (m1, _) =>
    let r := ensureExitLoop w h coin m1 1 1 0
    some (mset r.1 (h - 2) (w - 2) 0)

/-!
Game-component constants (part_000): `MAZE_SIZE = 21`, `WALL_SIZE = 2`,
`COLLISION_RADIUS = 0.25`, collision boundary margin `0.1`,
`MIN_SPAWN_DISTANCE = 8`, spawn separation `4`, win threshold `1.5`,
`RESPAWN_DELAY = 2000`.
-/

/-- World-to-grid conversion of the component:
`(worldPos + MAZE_SIZE * WALL_SIZE / 2) / WALL_SIZE`. -/
def worldToMaze (w : ℚ) : ℚ := (w + 21 * 2 / 2) / 2

/-- The `checkPositions` sample list of `checkCollision`: centre plus one
collision radius (0.25) along each axis. -/
def samplePoints (mx mz : ℚ) : List (ℚ × ℚ) :=
  [(mx, mz), (mx + 1/4, mz), (mx - 1/4, mz), (mx, mz + 1/4), (mx, mz - 1/4)]

/-- `checkCollision` of part_000: reject when outside the grid bounds with
margin 0.1, or when any sample point, floored to integer grid coordinates and
within the 21-cell bounds, lands on a wall cell. -/
def checkCollision (g : Maze) (px pz : ℚ) : Bool :=
  if worldToMaze px < 1/10 ∨ worldToMaze px ≥ 21 - 1/10 ∨
      worldToMaze pz < 1/10 ∨ worldToMaze pz ≥ 21 - 1/10 then true
  else
    (samplePoints (worldToMaze px) (worldToMaze pz)).any fun cp =>
      decide (0 ≤ ⌊cp.1⌋ ∧ ⌊cp.1⌋ < 21 ∧ 0 ≤ ⌊cp.2⌋ ∧ ⌊cp.2⌋ < 21 ∧ g ⌊cp.2⌋ ⌊cp.1⌋ = 1)

/-- The axis-separated commit of `updateMovement` (part_000): test the X
displacement against the original position and commit or reject, then test
the Z displacement against the original position and commit or reject
independently.  `(px, pz)` is the camera position, `(mvx, mvz)` the movement
vector already normalized, scaled and rotated. -/
def resolveMove (g : Maze) (px pz mvx mvz : ℚ) : ℚ × ℚ :=
  let nx := if checkCollision g (px + mvx) pz then px else px + mvx
  let nz := if checkCollision g px (pz + mvz) then pz else pz + mvz
  (nx, nz)

/-- Squared straight-line grid distance; the source computes
`Math.sqrt(dx*dx + dz*dz)` and compares it with an integer threshold `t`,
which on integer inputs is exactly `dist2 < t^2`. -/
def dist2 (p q : Int × Int) : Int := (p.1 - q.1) ^ 2 + (p.2 - q.2) ^ 2

/-- `isValidSpawnLocation` of part_000: reject wall cells, candidates with
straight-line distance from the spawn (1,1) below `MIN_SPAWN_DISTANCE = 8`,
and candidates within distance 4 of a previously used position.  The
comparisons `sqrt d2 < 8` and `sqrt d2 < 4` on integer `d2` are embedded as
the exact equivalents `d2 < 64` and `d2 < 16`. -/
def isValidSpawnLocation (m : Maze) (x z : Int) (used : List (Int × Int)) : Bool :=
  if m z x = 1 then false
  else if dist2 (x, z) (1, 1) < 64 then false
  else if used.any (fun p => decide (dist2 (x, z) p < 16)) then false
  else true

/-- `checkWinCondition` of part_000 as a transition on the `gameWon` flag:
win exactly when the grid distance from the player to the exit is below 1.5
(`dist2 < 2.25`, i.e. `4 * dist2 < 9` on integers) and the game is not
already won. -/
def checkWinCondition (playerPos exitPos : Int × Int) (gameWon : Bool) : Bool :=
  if 4 * dist2 playerPos exitPos < 9 ∧ gameWon = false then true else gameWon

/-- The session state touched by damage, respawn and the unmount cleanup of
part_000.  `respawnTimer` is the id/state of the pending `setTimeout`
respawn callback held in `respawnTimerRef` (`none` = no pending timer);
`listenersAttached` and `rendererDisposed` record the resources the
`useEffect` cleanup actually releases. -/
structure GameSession where
  lives : Int
  gameOver : Bool
  isRespawning : Bool
  hasCamera : Bool
  respawnTimer : Option Nat
  listenersAttached : Bool
  rendererDisposed : Bool
deriving DecidableEq, Repr

/-- `RESPAWN_DELAY` of part_000. -/
def RESPAWN_DELAY : Nat := 2000

/-- `respawnPlayer` of part_000: return early when the camera is missing or a
respawn is already in flight; otherwise enter the respawning lockout, clear
any pending respawn timer and arm a fresh one. -/
def respawnPlayer (s : GameSession) : GameSession :=
  if ¬s.hasCamera ∨ s.isRespawning then s
  else { s with isRespawning := true, respawnTimer := some RESPAWN_DELAY }

/-- `attackPlayer` of part_000: ignore damage during the respawn lockout;
otherwise decrement lives, and either transition to game over (lives
exhausted) or schedule a respawn. -/
def attackPlayer (s : GameSession) : GameSession :=
  if s.isRespawning then s
  else
    let newLives := s.lives - 1
    if newLives ≤ 0 then { s with lives := newLives, gameOver := true }
    else respawnPlayer { s with lives := newLives }

/-- The `useEffect` cleanup of part_000 (lines 841-853): it removes the
keyboard/resize/pointer-lock listeners and disposes the renderer, and touches
nothing else — in particular it does not clear `respawnTimerRef` and does not
cancel the `requestAnimationFrame` loop. -/
def effectCleanup (s : GameSession) : GameSession :=
  { s with listenersAttached := false, rendererDisposed := true }

/-- A concrete session with one life left, no respawn in flight and no
pending timer (fields: lives, gameOver, isRespawning, hasCamera,
respawnTimer, listenersAttached, rendererDisposed). -/
def oneLifeSession : GameSession := ⟨1, false, false, true, none, true, false⟩

/-- A concrete session mid respawn-lockout with a pending respawn timer, as
after an enemy attack with lives remaining. -/
def pendingTimerSession : GameSession := ⟨2, false, true, true, some RESPAWN_DELAY, true, false⟩

/-- Scan order of the exit search in the component setup: `x` from
`MAZE_SIZE-2 = 19` down to `MAZE_SIZE-4 = 17` outer, `z` from 19 down to 17
inner, stopping at the first open cell (`exitFound` flag). -/
def exitScanOrder : List (Int × Int) :=
  [(19, 19), (19, 18), (19, 17), (18, 19), (18, 18), (18, 17), (17, 19), (17, 18), (17, 17)]

/-- The exit-position scan of the component setup; `(0, 0)` is the default
value of `exitPositionRef` kept when no open cell is found. -/
def findExit (g : Maze) : Int × Int :=
  match exitScanOrder.find? (fun p => decide (g p.2 p.1 = 0)) with
  | some p => p
  | none => (0, 0)

/-- 4-adjacency of grid cells (pairs are `(x, z)`). -/
def Adj (p q : Int × Int) : Prop :=
  (q.1 = p.1 + 1 ∧ q.2 = p.2) ∨ (q.1 + 1 = p.1 ∧ q.2 = p.2) ∨
  (q.1 = p.1 ∧ q.2 = p.2 + 1) ∨ (q.1 = p.1 ∧ q.2 + 1 = p.2)

/-- Flood-fill reachability over open cells of a grid, stepping only between
4-adjacent cells; `Reach g p q` holds when there is a path of open cells from
`p` to `q` (pairs are `(x, z)`, lookups are `g z x`). -/
inductive Reach (g : Maze) : Int × Int → Int × Int → Prop where
  | refl : ∀ p, g p.2 p.1 = 0 → Reach g p p
  | head : ∀ p q r, g p.2 p.1 = 0 → Adj p q → Reach g q r → Reach g p r

/-- The spawn-validity predicate in the words of the spec and claim C5:
the cell is open, its straight-line distance from (1,1) strictly exceeds 8,
and its distance from every previously used position strictly exceeds 4. -/
def specValidSpawn (m : Maze) (x z : Int) (used : List (Int × Int)) : Prop :=
  m z x = 0 ∧ 64 < dist2 (x, z) (1, 1) ∧ ∀ p ∈ used, 16 < dist2 (x, z) p

instance (m : Maze) (x z : Int) (used : List (Int × Int)) :
    Decidable (specValidSpawn m x z used) := by
  unfold specValidSpawn; infer_instance

/-- Position whose fractional grid coordinates pass the boundary-margin test
of `checkCollision`. -/
def inMarginBounds (px pz : ℚ) : Prop :=
  1/10 ≤ worldToMaze px ∧ worldToMaze px < 21 - 1/10 ∧
  1/10 ≤ worldToMaze pz ∧ worldToMaze pz < 21 - 1/10

/-- Pointwise order on grids: `mle a b` when every cell of `a` is at most the
corresponding cell of `b` (the generator only ever writes `0`, so every
program step is `mle`-decreasing). -/
def mle (a b : Maze) : Prop := ∀ y x, a y x ≤ b y x

/-- Number of wall cells in the carving interior; the measure that makes the
depth-first carve terminate. -/
def wallCount (w h : Int) (m : Maze) : Nat :=
  ((Finset.Icc (1 : Int) (w - 2) ×ˢ Finset.Icc (1 : Int) (h - 2)).filter
    fun p => 1 ≤ m p.2 p.1).card

/-! ### Claim theorems (movement, collision, session logic) -/

/-- C9: `checkWinCondition` transitions to the won state exactly when the
squared grid distance to the exit is below `1.5²` (`4·dist2 < 9`) and the
game is not already won; at or above the threshold it never triggers, and
re-detecting the exit while already won is a no-op. -/
theorem c9_win_threshold (p e : Int × Int) :
    (checkWinCondition p e false = true ↔ 4 * dist2 p e < 9) ∧
    checkWinCondition p e true = true := by
  constructor
  · unfold checkWinCondition
    split <;> simp_all
  · unfold checkWinCondition
    simp

/-- C8: `attackPlayer` with exactly one life remaining (and damage not
suppressed by an in-flight respawn) sets `gameOver`, does not enter the
respawning state, and does not schedule a respawn timer. -/
theorem c8_lethal_damage (s : GameSession) (hl : s.lives = 1)
    (hr : s.isRespawning = false) :
    (attackPlayer s).gameOver = true ∧ (attackPlayer s).isRespawning = false ∧
    (attackPlayer s).respawnTimer = s.respawnTimer := by
  unfold attackPlayer
  rw [hr, hl]
  simp

theorem c8_lethal_damage_witness :
    (attackPlayer oneLifeSession).gameOver = true ∧
    (attackPlayer oneLifeSession).isRespawning = false ∧
    (attackPlayer oneLifeSession).respawnTimer = oneLifeSession.respawnTimer :=
  c8_lethal_damage oneLifeSession rfl rfl

/-- C4: evaluation of the embedded `useEffect` cleanup at a session with a
pending respawn timer: the cleanup removes listeners and disposes the
renderer but leaves the respawn timer armed, contradicting the claim that
teardown cancels any pending respawn timer. -/
theorem c4_cleanup_keeps_respawn_timer :
    (effectCleanup pendingTimerSession).respawnTimer = some RESPAWN_DELAY ∧
    (effectCleanup pendingTimerSession).listenersAttached = false := by
  exact ⟨rfl, rfl⟩

/-- C5 counterexample: at candidate (9,1) on an all-open grid with no used
positions, `isValidSpawnLocation` returns true although the straight-line
distance from the spawn (1,1) is exactly 8, which does not strictly exceed
the minimum spawn distance — so the claimed iff with strict inequalities is
false. -/
theorem c5_counterexample :
    ¬ (isValidSpawnLocation (fun _ _ => 0) 9 1 [] = true ↔
        specValidSpawn (fun _ _ => 0) 9 1 []) := by
  decide

/-- C5 (amended): `isValidSpawnLocation` returns true iff the cell is not a
wall cell, its squared distance from the spawn (1,1) is at least 64
(distance ≥ 8), and its squared distance from every previously used position
is at least 16 (distance ≥ 4). -/
theorem c5_amended_spawn_validity (m : Maze) (x z : Int) (used : List (Int × Int)) :
    isValidSpawnLocation m x z used = true ↔
      (m z x ≠ 1 ∧ 64 ≤ dist2 (x, z) (1, 1) ∧ ∀ p ∈ used, 16 ≤ dist2 (x, z) p) := by
  unfold isValidSpawnLocation
  split
  · rename_i hwall
    simp [hwall]
  · rename_i hwall
    split
    · rename_i hnear
      simp only [Bool.false_eq_true, false_iff]
      intro h
      omega
    · rename_i hnear
      split
      · rename_i hused
        simp only [List.any_eq_true, decide_eq_true_eq] at hused
        obtain ⟨p, hp, hlt⟩ := hused
        simp only [Bool.false_eq_true, false_iff]
        intro h
        have := h.2.2 p hp
        omega
      · rename_i hused
        simp only [List.any_eq_true, decide_eq_true_eq] at hused
        push_neg at hused
        simp only [true_iff]
        refine ⟨hwall, by omega, fun p hp => ?_⟩
        have := hused p hp
        omega

/-- C2: the axis-separated movement resolution of `updateMovement`: for any
diagonal movement intent where the X displacement alone collides and the Z
displacement alone passes the collision test, the Z component still commits
(the player slides along the wall) while the X component is rejected. -/
theorem c2_axis_slide (g : Maze) (px pz mvx mvz : ℚ)
    (_hdx : mvx ≠ 0) (_hdz : mvz ≠ 0)
    (hxblocked : checkCollision g (px + mvx) pz = true)
    (hzfree : checkCollision g px (pz + mvz) = false) :
    resolveMove g px pz mvx mvz = (px, pz + mvz) := by
  unfold resolveMove
  rw [hxblocked, hzfree]
  simp

theorem c2_axis_slide_witness :
    resolveMove (fun _ x => if 11 ≤ x then 1 else 0) 0 0 1 1 = (0, 0 + 1) :=
  c2_axis_slide _ 0 0 1 1 (by norm_num) (by norm_num)
    (by
      unfold checkCollision samplePoints worldToMaze
      norm_num)
    (by
      unfold checkCollision samplePoints worldToMaze
      norm_num)

/-- C3: collision symmetry of `checkCollision`: a candidate position whose
containing grid cell is a wall is always rejected, and a position passing the
boundary-margin test all of whose sample offsets land in open cells is always
accepted. -/
theorem c3_collision_symmetry (g : Maze) (px pz : ℚ) :
    (g ⌊worldToMaze pz⌋ ⌊worldToMaze px⌋ = 1 → checkCollision g px pz = true) ∧
    (inMarginBounds px pz →
      (∀ p ∈ samplePoints (worldToMaze px) (worldToMaze pz), g ⌊p.2⌋ ⌊p.1⌋ = 0) →
      checkCollision g px pz = false) := by
  constructor
  · intro hwall
    unfold checkCollision
    split
    · rfl
    · rename_i hm
      push_neg at hm
      obtain ⟨h1, h2, h3, h4⟩ := hm
      have hx0 : (0 : Int) ≤ ⌊worldToMaze px⌋ := Int.le_floor.mpr (by push_cast; linarith)
      have hx1 : ⌊worldToMaze px⌋ < 21 := Int.floor_lt.mpr (by push_cast; linarith)
      have hz0 : (0 : Int) ≤ ⌊worldToMaze pz⌋ := Int.le_floor.mpr (by push_cast; linarith)
      have hz1 : ⌊worldToMaze pz⌋ < 21 := Int.floor_lt.mpr (by push_cast; linarith)
      simp only [samplePoints, List.any_cons, List.any_nil, Bool.or_eq_true,
        decide_eq_true_eq]
      exact Or.inl ⟨hx0, hx1, hz0, hz1, hwall⟩
  · intro hmargin hopen
    unfold checkCollision
    split
    · rename_i hm
      exfalso
      obtain ⟨g1, g2, g3, g4⟩ := hmargin
      rcases hm with h | h | h | h <;> linarith
    · rw [List.any_eq_false]
      intro p hp
      have := hopen p hp
      simp [this]

theorem c3_collision_symmetry_witness :
    checkCollision (fun _ _ => 1) 0 0 = true ∧
    checkCollision (fun _ _ => 0) 0 0 = false := by
  constructor
  · exact (c3_collision_symmetry (fun _ _ => 1) 0 0).1 rfl
  · exact (c3_collision_symmetry (fun _ _ => 0) 0 0).2
      (by unfold inMarginBounds worldToMaze; norm_num) (fun p _ => rfl)

/-! ### Maze generator lemmas -/

theorem mset_same (m : Maze) (y x : Int) (v : Nat) : mset m y x v y x = v := by
  simp [mset]

theorem mset_ne (m : Maze) (y x : Int) (v : Nat) (y' x' : Int)
    (h : ¬(y' = y ∧ x' = x)) : mset m y x v y' x' = m y' x' := by
  simp [mset, h]

theorem mle_refl (m : Maze) : mle m m := fun _ _ => le_refl _

theorem mle_trans {a b c : Maze} (h1 : mle a b) (h2 : mle b c) : mle a c :=
  fun y x => le_trans (h1 y x) (h2 y x)

theorem mset_zero_mle (m : Maze) (y x : Int) : mle (mset m y x 0) m := by
  intro y' x'
  unfold mset
  split
  · omega
  · exact le_refl _

theorem mset_le_zero {m : Maze} (y x : Int) {Y X : Int} (h : m Y X = 0) :
    mset m y x 0 Y X = 0 := by
  unfold mset
  split
  · rfl
  · exact h

theorem getD_mem_of_lt {l : List (Int × Int)} {j : Nat} (h : j < l.length) :
    l.getD j (0, 0) ∈ l := by
  rw [List.getD_eq_getElem l (0, 0) h]
  exact List.getElem_mem h

theorem listSwap_subset {l : List (Int × Int)} {i j : Nat}
    (hi : i < l.length) (hj : j < l.length) {d : Int × Int}
    (hd : d ∈ listSwap l i j) : d ∈ l := by
  unfold listSwap at hd
  rcases List.mem_or_eq_of_mem_set hd with hd1 | rfl
  · rcases List.mem_or_eq_of_mem_set hd1 with hd2 | rfl
    · exact hd2
    · exact getD_mem_of_lt hj
  · exact getD_mem_of_lt hi

theorem listSwap_length (l : List (Int × Int)) (i j : Nat) :
    (listSwap l i j).length = l.length := by
  simp [listSwap]

theorem shuffleDirs_mem (shuf : Nat → Nat) (k : Nat) {d : Int × Int}
    (hd : d ∈ (shuffleDirs shuf k).1) : d ∈ dirs0 := by
  unfold shuffleDirs at hd
  simp only at hd
  have len0 : dirs0.length = 4 := rfl
  have len1 : (listSwap dirs0 3 (shuf k % 4)).length = 4 := by
    rw [listSwap_length, len0]
  have len2 : (listSwap (listSwap dirs0 3 (shuf k % 4)) 2 (shuf (k + 1) % 3)).length = 4 := by
    rw [listSwap_length, len1]
  have h1 := listSwap_subset (by omega) (by omega) hd
  have h2 := listSwap_subset (l := listSwap dirs0 3 (shuf k % 4))
    (by omega) (by omega) h1
  exact listSwap_subset (l := dirs0)
    (by omega) (by have := Nat.mod_lt (shuf k) (y := 4) (by omega); omega) h2

theorem between_valid {w h x y dx dy : Int} (hd : (dx, dy) ∈ dirs0)
    (hxy : isValidCell w h x y) (hn : isValidCell w h (x + dx) (y + dy)) :
    isValidCell w h (x + dx / 2) (y + dy / 2) := by
  unfold isValidCell at *
  simp only [dirs0, List.mem_cons, List.mem_singleton, Prod.mk.injEq,
    List.not_mem_nil, or_false] at hd
  rcases hd with ⟨rfl, rfl⟩ | ⟨rfl, rfl⟩ | ⟨rfl, rfl⟩ | ⟨rfl, rfl⟩ <;> omega

theorem neighbor_ne_between {dx dy : Int} (x y : Int) (hd : (dx, dy) ∈ dirs0) :
    ¬(y + dy = y + dy / 2 ∧ x + dx = x + dx / 2) := by
  simp only [dirs0, List.mem_cons, List.mem_singleton, Prod.mk.injEq,
    List.not_mem_nil, or_false] at hd
  rcases hd with ⟨rfl, rfl⟩ | ⟨rfl, rfl⟩ | ⟨rfl, rfl⟩ | ⟨rfl, rfl⟩ <;> omega

theorem tryDirs_mle (w h : Int) (step : Maze → Int → Int → Nat → Option (Maze × Nat))
    (hstep : ∀ m x y k m' k', step m x y k = some (m', k') → mle m' m) (x y : Int) :
    ∀ ds m k m' k', tryDirs w h step x y m k ds = some (m', k') → mle m' m := by
  intro ds
  induction ds with
  | nil =>
    intro m k m' k' htd
    simp only [tryDirs, Option.some.injEq, Prod.mk.injEq] at htd
    rw [← htd.1]
    exact mle_refl m
  | cons d rest ih =>
    intro m k m' k' htd
    simp only [tryDirs] at htd
    split at htd
    · rename_i hguard
      cases hs : step (mset m (y + d.2 / 2) (x + d.1 / 2) 0) (x + d.1) (y + d.2) k with
      | none => rw [hs] at htd; simp at htd
      | some pr =>
        rw [hs] at htd
        obtain ⟨m3, k3⟩ := pr
        simp only at htd
        exact mle_trans (mle_trans (ih _ _ _ _ htd) (hstep _ _ _ _ _ _ hs))
          (mset_zero_mle m _ _)
    · exact ih _ _ _ _ htd

theorem carvePath_mle (w h : Int) (shuf : Nat → Nat) :
    ∀ fuel m x y k m' k', carvePath w h shuf fuel m x y k = some (m', k') →
      mle m' m := by
  intro fuel
  induction fuel with
  | zero => intro m x y k m' k' hc; simp [carvePath] at hc
  | succ f ih =>
    intro m x y k m' k' hc
    simp only [carvePath] at hc
    exact mle_trans
      (tryDirs_mle w h _ (fun m2 x2 y2 k2 m3 k3 hs => ih m2 x2 y2 k2 m3 k3 hs) x y
        _ _ _ _ _ hc)
      (mset_zero_mle m y x)

theorem tryDirs_outside (w h : Int)
    (step : Maze → Int → Int → Nat → Option (Maze × Nat))
    (hstep : ∀ m x y k m' k', isValidCell w h x y → step m x y k = some (m', k') →
      ∀ Y X, ¬isValidCell w h X Y → m' Y X = m Y X)
    (x y : Int) (hxy : isValidCell w h x y) :
    ∀ ds, (∀ d ∈ ds, d ∈ dirs0) → ∀ m k m' k',
      tryDirs w h step x y m k ds = some (m', k') →
      ∀ Y X, ¬isValidCell w h X Y → m' Y X = m Y X := by
  intro ds
  induction ds with
  | nil =>
    intro _ m k m' k' htd Y X hout
    simp only [tryDirs, Option.some.injEq, Prod.mk.injEq] at htd
    rw [← htd.1]
  | cons d rest ih =>
    intro hmem m k m' k' htd Y X hout
    simp only [tryDirs] at htd
    split at htd
    · rename_i hguard
      obtain ⟨hv, h1⟩ := hguard
      cases hs : step (mset m (y + d.2 / 2) (x + d.1 / 2) 0) (x + d.1) (y + d.2) k with
      | none => rw [hs] at htd; simp at htd
      | some pr =>
        rw [hs] at htd
        obtain ⟨m3, k3⟩ := pr
        simp only at htd
        have e1 := ih (fun d hd => hmem d (List.mem_cons_of_mem _ hd)) _ _ _ _ htd Y X hout
        have e2 := hstep _ _ _ _ _ _ hv hs Y X hout
        have hdm : d ∈ dirs0 := hmem d (List.mem_cons_self d rest)
        have hbv : isValidCell w h (x + d.1 / 2) (y + d.2 / 2) := by
          have : (d.1, d.2) ∈ dirs0 := by
            rcases d with ⟨d1, d2⟩; exact hdm
          exact between_valid this hxy hv
        have e3 : mset m (y + d.2 / 2) (x + d.1 / 2) 0 Y X = m Y X := by
          apply mset_ne
          intro hc
          apply hout
          rw [hc.1, hc.2]
          exact hbv
        rw [e1, e2, e3]
    · exact ih (fun d hd => hmem d (List.mem_cons_of_mem _ hd)) _ _ _ _ htd Y X hout

theorem carvePath_outside (w h : Int) (shuf : Nat → Nat) :
    ∀ fuel m x y k m' k', isValidCell w h x y →
      carvePath w h shuf fuel m x y k = some (m', k') →
      ∀ Y X, ¬isValidCell w h X Y → m' Y X = m Y X := by
  intro fuel
  induction fuel with
  | zero => intro m x y k m' k' _ hc; simp [carvePath] at hc
  | succ f ih =>
    intro m x y k m' k' hxy hc Y X hout
    simp only [carvePath] at hc
    have e1 := tryDirs_outside w h _
      (fun m2 x2 y2 k2 m3 k3 hv hs => ih m2 x2 y2 k2 m3 k3 hv hs) x y hxy
      _ (fun d hd => shuffleDirs_mem shuf k hd) _ _ _ _ hc Y X hout
    have e2 : mset m y x 0 Y X = m Y X := by
      apply mset_ne
      intro hcq
      apply hout
      rw [hcq.1, hcq.2]
      exact hxy
    rw [e1, e2]

theorem wallCount_mle {w h : Int} {a b : Maze} (hab : mle a b) :
    wallCount w h a ≤ wallCount w h b := by
  unfold wallCount
  apply Finset.card_le_card
  intro p hp
  simp only [Finset.mem_filter] at *
  exact ⟨hp.1, le_trans hp.2 (hab p.2 p.1)⟩

theorem wallCount_mset_lt {w h : Int} {m : Maze} {x y : Int}
    (hv : isValidCell w h x y) (hm : m y x = 1) :
    wallCount w h (mset m y x 0) < wallCount w h m := by
  unfold isValidCell at hv
  unfold wallCount
  apply Finset.card_lt_card
  rw [Finset.ssubset_iff_of_subset]
  · refine ⟨(x, y), ?_, ?_⟩
    · simp only [Finset.mem_filter, Finset.mem_product, Finset.mem_Icc]
      refine ⟨⟨⟨by omega, by omega⟩, by omega, by omega⟩, by omega⟩
    · simp only [Finset.mem_filter, not_and]
      intro _
      rw [mset_same]
      omega
  · intro p hp
    simp only [Finset.mem_filter] at hp ⊢
    refine ⟨hp.1, ?_⟩
    have := hp.2
    by_cases hpe : p.2 = y ∧ p.1 = x
    · rw [hpe.1, hpe.2, mset_same] at this
      omega
    · rw [mset_ne _ _ _ _ _ _ hpe] at this
      exact this

theorem wallCount_pos {w h : Int} {m : Maze} {x y : Int}
    (hv : isValidCell w h x y) (hm : m y x = 1) : 0 < wallCount w h m := by
  unfold isValidCell at hv
  unfold wallCount
  apply Finset.card_pos.mpr
  refine ⟨(x, y), ?_⟩
  simp only [Finset.mem_filter, Finset.mem_product, Finset.mem_Icc]
  refine ⟨⟨⟨by omega, by omega⟩, by omega, by omega⟩, by omega⟩

theorem tryDirs_isSome (w h : Int) (shuf : Nat → Nat) (f : Nat)
    (ihEx : ∀ m x y k, isValidCell w h x y → m y x = 1 → wallCount w h m ≤ f →
      (carvePath w h shuf f m x y k).isSome) (x y : Int) :
    ∀ ds, (∀ d ∈ ds, d ∈ dirs0) → ∀ m k, wallCount w h m ≤ f →
      (tryDirs w h (fun m2 nx ny k2 => carvePath w h shuf f m2 nx ny k2)
        x y m k ds).isSome := by
  intro ds
  induction ds with
  | nil => intro _ m k _; simp [tryDirs]
  | cons d rest ih =>
    intro hmem m k hwc
    simp only [tryDirs]
    split
    · rename_i hguard
      obtain ⟨hv, h1⟩ := hguard
      have hdm : d ∈ dirs0 := hmem d (List.mem_cons_self d rest)
      have hne : ¬(y + d.2 = y + d.2 / 2 ∧ x + d.1 = x + d.1 / 2) := by
        rcases d with ⟨d1, d2⟩
        exact neighbor_ne_between x y hdm
      have hm2v : mset m (y + d.2 / 2) (x + d.1 / 2) 0 (y + d.2) (x + d.1) = 1 := by
        rw [mset_ne _ _ _ _ _ _ hne]
        exact h1
      have hwc2 : wallCount w h (mset m (y + d.2 / 2) (x + d.1 / 2) 0) ≤ f :=
        le_trans (wallCount_mle (mset_zero_mle _ _ _)) hwc
      have hsome := ihEx _ (x + d.1) (y + d.2) k hv hm2v hwc2
      cases hs : carvePath w h shuf f (mset m (y + d.2 / 2) (x + d.1 / 2) 0)
          (x + d.1) (y + d.2) k with
      | none => rw [hs] at hsome; simp at hsome
      | some pr =>
        obtain ⟨m3, k3⟩ := pr
        simp only
        apply ih (fun d hd => hmem d (List.mem_cons_of_mem _ hd))
        exact le_trans (wallCount_mle (carvePath_mle w h shuf f _ _ _ _ _ _ hs)) hwc2
    · exact ih (fun d hd => hmem d (List.mem_cons_of_mem _ hd)) m k hwc

theorem carvePath_isSome (w h : Int) (shuf : Nat → Nat) :
    ∀ fuel m x y k, isValidCell w h x y → m y x = 1 → wallCount w h m ≤ fuel →
      (carvePath w h shuf fuel m x y k).isSome := by
  intro fuel
  induction fuel with
  | zero =>
    intro m x y k hv hm hwc
    have := wallCount_pos (w := w) (h := h) hv hm
    omega
  | succ f ih =>
    intro m x y k hv hm hwc
    simp only [carvePath]
    apply tryDirs_isSome w h shuf f ih x y _
      (fun d hd => shuffleDirs_mem shuf k hd)
    have := wallCount_mset_lt (w := w) (h := h) hv hm
    omega

theorem carvePath_cell_zero (w h : Int) (shuf : Nat → Nat) (fuel : Nat)
    (m : Maze) (x y : Int) (k : Nat) (m' : Maze) (k' : Nat)
    (hc : carvePath w h shuf fuel m x y k = some (m', k')) : m' y x = 0 := by
  cases fuel with
  | zero => simp [carvePath] at hc
  | succ f =>
    simp only [carvePath] at hc
    have h1 := tryDirs_mle w h _
      (fun m2 x2 y2 k2 m3 k3 hs => carvePath_mle w h shuf f m2 x2 y2 k2 m3 k3 hs)
      x y _ _ _ _ _ hc
    have := h1 y x
    rw [mset_same] at this
    omega

/-! ### Exit-path loop lemmas -/

theorem exitLoop_mle (w h : Int) (coin : Nat → Bool) :
    ∀ n m x y k, (w - 2 - x).toNat + (h - 2 - y).toNat = n →
      mle (ensureExitLoop w h coin m x y k).1 m := by
  intro n
  induction n using Nat.strong_induction_on with
  | _ n ih =>
    intro m x y k hn
    unfold ensureExitLoop
    split
    · rename_i hg
      split
      · rename_i hx
        split
        · exact mle_trans (ih _ (by omega) _ _ _ _ rfl) (mset_zero_mle m y x)
        · split
          · rename_i hy
            exact mle_trans (ih _ (by omega) _ _ _ _ rfl) (mset_zero_mle m y x)
          · exact mle_trans (ih _ (by omega) _ _ _ _ rfl) (mset_zero_mle m y x)
      · rename_i hx
        exact mle_trans (ih _ (by omega) _ _ _ _ rfl) (mset_zero_mle m y x)
    · exact mle_refl m

theorem exitLoop_outside (w h : Int) (coin : Nat → Bool) :
    ∀ n m x y k, (w - 2 - x).toNat + (h - 2 - y).toNat = n →
      1 ≤ x → x ≤ w - 2 → 1 ≤ y → y ≤ h - 2 →
      ∀ Y X, ¬isValidCell w h X Y →
        (ensureExitLoop w h coin m x y k).1 Y X = m Y X := by
  intro n
  induction n using Nat.strong_induction_on with
  | _ n ih =>
    intro m x y k hn hx1 hx2 hy1 hy2 Y X hout
    have hv : isValidCell w h x y := by unfold isValidCell; omega
    have hmz : mset m y x 0 Y X = m Y X := by
      apply mset_ne
      intro hc
      apply hout
      rw [hc.1, hc.2]
      exact hv
    unfold ensureExitLoop
    split
    · rename_i hg
      split
      · rename_i hx
        split
        · rw [ih _ (by omega) _ _ _ _ rfl (by omega) (by omega) (by omega) (by omega)
            Y X hout, hmz]
        · split
          · rename_i hy
            rw [ih _ (by omega) _ _ _ _ rfl (by omega) (by omega) (by omega) (by omega)
              Y X hout, hmz]
          · rename_i hy
            rw [ih _ (by omega) _ _ _ _ rfl (by omega) (by omega) (by omega) (by omega)
              Y X hout, hmz]
      · rename_i hx
        rw [ih _ (by omega) _ _ _ _ rfl (by omega) (by omega) (by omega) (by omega)
          Y X hout, hmz]
    · rfl

theorem exitLoop_reach (w h : Int) (coin : Nat → Bool) :
    ∀ n m x y k, (w - 2 - x).toNat + (h - 2 - y).toNat = n →
      1 ≤ x → x ≤ w - 2 → 1 ≤ y → y ≤ h - 2 →
      Reach (mset (ensureExitLoop w h coin m x y k).1 (h - 2) (w - 2) 0)
        (x, y) (w - 2, h - 2) := by
  intro n
  induction n using Nat.strong_induction_on with
  | _ n ih =>
    intro m x y k hn hx1 hx2 hy1 hy2
    unfold ensureExitLoop
    split
    · rename_i hg
      have hopen : ∀ m1 x' y' k',
          mle (ensureExitLoop w h coin m1 x' y' k').1 (mset m y x 0) →
          mset (ensureExitLoop w h coin m1 x' y' k').1 (h - 2) (w - 2) 0 y x = 0 := by
        intro m1 x' y' k' hle
        apply mset_le_zero
        have := hle y x
        rw [mset_same] at this
        omega
      split
      · rename_i hx
        split
        · refine Reach.head (x, y) (x + 1, y) _ ?_ ?_
            (ih _ (by omega) _ _ _ _ rfl (by omega) (by omega) (by omega) (by omega))
          · exact hopen _ _ _ _ (exitLoop_mle w h coin _ _ _ _ _ rfl)
          · unfold Adj; left; exact ⟨rfl, rfl⟩
        · split
          · rename_i hy
            refine Reach.head (x, y) (x, y + 1) _ ?_ ?_
              (ih _ (by omega) _ _ _ _ rfl (by omega) (by omega) (by omega) (by omega))
            · exact hopen _ _ _ _ (exitLoop_mle w h coin _ _ _ _ _ rfl)
            · unfold Adj; right; right; left; exact ⟨rfl, rfl⟩
          · rename_i hy
            refine Reach.head (x, y) (x + 1, y) _ ?_ ?_
              (ih _ (by omega) _ _ _ _ rfl (by omega) (by omega) (by omega) (by omega))
            · exact hopen _ _ _ _ (exitLoop_mle w h coin _ _ _ _ _ rfl)
            · unfold Adj; left; exact ⟨rfl, rfl⟩
      · rename_i hx
        refine Reach.head (x, y) (x, y + 1) _ ?_ ?_
          (ih _ (by omega) _ _ _ _ rfl (by omega) (by omega) (by omega) (by omega))
        · exact hopen _ _ _ _ (exitLoop_mle w h coin _ _ _ _ _ rfl)
        · unfold Adj; right; right; left; exact ⟨rfl, rfl⟩
    · rename_i hg
      have hxe : x = w - 2 := by omega
      have hye : y = h - 2 := by omega
      subst hxe
      subst hye
      exact Reach.refl (w - 2, h - 2) (by simpa using mset_same _ (h - 2) (w - 2) 0)

/-! ### Generator-level lemmas -/

theorem generate_isSome (w h : Int) (hw : 3 ≤ w) (hh : 3 ≤ h)
    (shuf : Nat → Nat) (coin : Nat → Bool) : (generate w h shuf coin).isSome := by
  unfold generate
  have hv : isValidCell w h 1 1 := by unfold isValidCell; omega
  have hwc : wallCount w h (fun _ _ => 1) ≤ w.toNat * h.toNat := by
    unfold wallCount
    calc ((Finset.Icc (1 : Int) (w - 2) ×ˢ Finset.Icc (1 : Int) (h - 2)).filter
          fun p => 1 ≤ (fun _ _ => (1 : Nat)) p.2 p.1).card
        ≤ (Finset.Icc (1 : Int) (w - 2) ×ˢ Finset.Icc (1 : Int) (h - 2)).card :=
          Finset.card_filter_le _ _
      _ = (Finset.Icc (1 : Int) (w - 2)).card * (Finset.Icc (1 : Int) (h - 2)).card :=
          Finset.card_product _ _
      _ ≤ w.toNat * h.toNat := by
          apply Nat.mul_le_mul <;> rw [Int.card_Icc] <;> omega
  have hsome := carvePath_isSome w h shuf (w.toNat * h.toNat) (fun _ _ => 1) 1 1 0
    hv rfl hwc
  cases hc : carvePath w h shuf (w.toNat * h.toNat) (fun _ _ => 1) 1 1 0 with
  | none => rw [hc] at hsome; simp at hsome
  | some pr =>
    obtain ⟨m1, k1⟩ := pr
    simp

theorem generate_eq (w h : Int) (shuf : Nat → Nat) (coin : Nat → Bool) (g : Maze)
    (hg : generate w h shuf coin = some g) :
    ∃ m1 k1, carvePath w h shuf (w.toNat * h.toNat) (fun _ _ => 1) 1 1 0 = some (m1, k1) ∧
      g = mset (ensureExitLoop w h coin m1 1 1 0).1 (h - 2) (w - 2) 0 := by
  unfold generate at hg
  cases hc : carvePath w h shuf (w.toNat * h.toNat) (fun _ _ => 1) 1 1 0 with
  | none => rw [hc] at hg; simp at hg
  | some pr =>
    rw [hc] at hg
    obtain ⟨m1, k1⟩ := pr
    simp only [Option.some.injEq] at hg
    exact ⟨m1, k1, rfl, hg.symm⟩

theorem findExit_of_open (g : Maze) (hopen : g 19 19 = 0) : findExit g = (19, 19) := by
  unfold findExit exitScanOrder
  rw [List.find?_cons_of_pos]
  simp [hopen]

/-! ### Claim theorems (maze generator) -/

/-- C6: `MazeGenerator.generate` always terminates and returns a grid, for
every outcome of the random choices (the depth-first carve never exhausts the
`w·h` fuel because each recursive call consumes an interior wall cell, and
the exit-path loop strictly decreases the remaining column-plus-row
distance); there is no failure path. -/
theorem c6_generate_total (w h : Int) (hw : 3 ≤ w) (hh : 3 ≤ h)
    (shuf : Nat → Nat) (coin : Nat → Bool) : ∃ g, generate w h shuf coin = some g :=
  Option.isSome_iff_exists.mp (generate_isSome w h hw hh shuf coin)

theorem c6_generate_total_witness :
    ∃ g, generate 21 21 (fun _ => 0) (fun _ => true) = some g :=
  c6_generate_total 21 21 (by norm_num) (by norm_num) (fun _ => 0) (fun _ => true)

/-- C7: every grid returned by `MazeGenerator.generate` has all border cells
(row 0, row h−1, column 0, column w−1) equal to wall, and cell (1,1) open:
neither the depth-first carving nor the exit-path pass ever writes a border
cell. -/
theorem c7_border_invariant (w h : Int) (hw : 3 ≤ w) (hh : 3 ≤ h)
    (shuf : Nat → Nat) (coin : Nat → Bool) (g : Maze)
    (hg : generate w h shuf coin = some g) :
    (∀ x z : Int, (x = 0 ∨ x = w - 1 ∨ z = 0 ∨ z = h - 1) → g z x = 1) ∧
      g 1 1 = 0 := by
  obtain ⟨m1, k1, hc, hge⟩ := generate_eq w h shuf coin g hg
  subst hge
  have hv11 : isValidCell w h 1 1 := by unfold isValidCell; omega
  constructor
  · intro x z hborder
    have hout : ¬isValidCell w h x z := by
      unfold isValidCell
      omega
    have hexitv : isValidCell w h (w - 2) (h - 2) := by unfold isValidCell; omega
    have e1 : mset (ensureExitLoop w h coin m1 1 1 0).1 (h - 2) (w - 2) 0 z x =
        (ensureExitLoop w h coin m1 1 1 0).1 z x := by
      apply mset_ne
      intro hce
      apply hout
      rw [hce.1, hce.2]
      exact hexitv
    have e2 := exitLoop_outside w h coin _ m1 1 1 0 rfl (by omega) (by omega)
      (by omega) (by omega) z x hout
    have e3 := carvePath_outside w h shuf _ _ _ _ _ _ _ hv11 hc z x hout
    rw [e1, e2, e3]
  · have h0 : m1 1 1 = 0 := carvePath_cell_zero w h shuf _ _ _ _ _ _ _ hc
    apply mset_le_zero
    have := exitLoop_mle w h coin _ m1 1 1 0 rfl 1 1
    omega

theorem c7_border_invariant_witness :
    ∃ g, generate 21 21 (fun _ => 0) (fun _ => true) = some g ∧
      ((∀ x z : Int, (x = 0 ∨ x = 21 - 1 ∨ z = 0 ∨ z = 21 - 1) → g z x = 1) ∧
        g 1 1 = 0) := by
  obtain ⟨g, hg⟩ := Option.isSome_iff_exists.mp
    (generate_isSome 21 21 (by norm_num) (by norm_num) (fun _ => 0) (fun _ => true))
  exact ⟨g, hg, c7_border_invariant 21 21 (by norm_num) (by norm_num)
    (fun _ => 0) (fun _ => true) g hg⟩

/-- C1: for every grid returned by `MazeGenerator.generate` at 21×21 and every
outcome of the random choices, there is a path of open cells, stepping only
between 4-adjacent cells, from (1,1) to the exit cell chosen by the far-corner
scan (which is (19,19) = (W−2, H−2)). -/
theorem c1_exit_reachable (shuf : Nat → Nat) (coin : Nat → Bool) (g : Maze)
    (hg : generate 21 21 shuf coin = some g) : Reach g (1, 1) (findExit g) := by
  obtain ⟨m1, k1, hc, hge⟩ := generate_eq 21 21 shuf coin g hg
  have hfe : findExit g = (19, 19) := by
    apply findExit_of_open
    rw [hge]
    have e : ((21 : Int) - 2) = 19 := by norm_num
    rw [e]
    exact mset_same _ 19 19 0
  rw [hfe]
  have hr := exitLoop_reach 21 21 coin _ m1 1 1 0 rfl (by norm_num) (by norm_num)
    (by norm_num) (by norm_num)
  rw [hge]
  have e : ((21 : Int) - 2) = 19 := by norm_num
  rw [e] at hr
  exact hr

theorem c1_exit_reachable_witness :
    ∃ g, generate 21 21 (fun _ => 0) (fun _ => true) = some g ∧
      Reach g (1, 1) (findExit g) := by
  obtain ⟨g, hg⟩ := Option.isSome_iff_exists.mp
    (generate_isSome 21 21 (by norm_num) (by norm_num) (fun _ => 0) (fun _ => true))
  exact ⟨g, hg, c1_exit_reachable (fun _ => 0) (fun _ => true) g hg⟩

/-- C10: for every generated 21×21 grid, the exit scan of the level setup
always selects exactly (19,19) = (MAZE_SIZE−2, MAZE_SIZE−2): `ensureExitPath`
unconditionally forces that cell open and the scan examines it first, so the
search never falls through to the default (0,0). -/
theorem c10_exit_position (shuf : Nat → Nat) (coin : Nat → Bool) (g : Maze)
    (hg : generate 21 21 shuf coin = some g) : findExit g = (19, 19) := by
  obtain ⟨m1, k1, hc, hge⟩ := generate_eq 21 21 shuf coin g hg
  apply findExit_of_open
  rw [hge]
  have e : ((21 : Int) - 2) = 19 := by norm_num
  rw [e]
  exact mset_same _ 19 19 0

theorem c10_exit_position_witness :
    ∃ g, generate 21 21 (fun _ => 0) (fun _ => true) = some g ∧
      findExit g = (19, 19) := by
  obtain ⟨g, hg⟩ := Option.isSome_iff_exists.mp
    (generate_isSome 21 21 (by norm_num) (by norm_num) (fun _ => 0) (fun _ => true))
  exact ⟨g, hg, c10_exit_position (fun _ => 0) (fun _ => true) g hg⟩

end MazeWanderer
